import Mathlib

/-!
Shallow embedding of `transcript_spider.py` (TranscriptSpider).

The file models the two pure stages of the pipeline:

* `parse` (lines 16-88): marker search over the script content, the lazy
  regex carving of the embedded `ytInitialPlayerResponse` object, `json.loads`,
  key-path navigation to the caption-track list, and the language-preference
  track selection — embedded here as `extract` and `select`.
* `parse_transcript` (lines 90-119): joining the text nodes, whitespace
  normalization (`re.sub` of whitespace runs plus `strip`), and the character
  and word counts — embedded here as `assemble`.

Strings are modelled as `List Char` internally (Python `str` is a sequence of
code points); `\s` and `str.split()` use the ASCII whitespace set.
-/

/-- The characters matched by the regex class `\s` (ASCII part), which is also
the set stripped by `str.strip()` and split on by `str.split()`. -/
def isPySpace (c : Char) : Bool :=
  c = ' ' || c = '\t' || c = '\n' || c = '\r' || c = '\x0b' || c = '\x0c'

/-- Worker for `re.sub(r'\s+', ' ', s)`: `prevWs` records whether the previous
input character was whitespace (i.e. we are inside a run that has already been
replaced by one space). -/
def collapseAux : Bool → List Char → List Char
  | _, [] => []
  | prevWs, c :: rest =>
    if isPySpace c then
      if prevWs then collapseAux true rest
      else ' ' :: collapseAux true rest
    else c :: collapseAux false rest

/-- `re.sub(r'\s+', ' ', s)` from line 106: every maximal whitespace run
becomes a single space. -/
def collapsePy (l : List Char) : List Char := collapseAux false l

/-- `str.strip()`: drop whitespace from both ends. -/
def stripPy (l : List Char) : List Char :=
  ((l.dropWhile isPySpace).reverse.dropWhile isPySpace).reverse

/-- Line 106: `transcript_text = re.sub(r'\s+', ' ', transcript_text).strip()`. -/
def normPy (l : List Char) : List Char := stripPy (collapsePy l)

/-- Worker for `str.split()`: `acc` is the reversed current token. -/
def pySplitAux : List Char → List Char → List (List Char)
  | [], acc => if acc.isEmpty then [] else [acc.reverse]
  | c :: rest, acc =>
    if isPySpace c then
      if acc.isEmpty then pySplitAux rest []
      else acc.reverse :: pySplitAux rest []
    else pySplitAux rest (c :: acc)

/-- `str.split()` with no arguments: whitespace-delimited tokens, leading and
trailing whitespace ignored, `''.split() = []`. -/
def pySplit (l : List Char) : List (List Char) := pySplitAux l []

/-- `' '.join(text_nodes)` from line 103. -/
def joinSp : List (List Char) → List Char
  | [] => []
  | [x] => x
  | x :: y :: rest => x ++ ' ' :: joinSp (y :: rest)

/-- The item yielded at lines 111-116. -/
structure TranscriptRecord where
  transcriptText : String
  videoUrl : Option String
  characterCount : Nat
  wordCount : Nat
  deriving DecidableEq, Repr

/-- `parse_transcript` (lines 90-119) after the XML text nodes have been
extracted: fails (yields nothing, after the "No text nodes found" log) when
the node list is empty, otherwise joins with single spaces, normalizes, and
recomputes both counts from the final text. -/
def assemble (nodes : List String) (videoUrl : Option String) :
    Option TranscriptRecord :=
  if nodes.isEmpty then none
  else
    let text : String := ⟨normPy (joinSp (nodes.map String.data))⟩
    some { transcriptText := text
           videoUrl := videoUrl
           characterCount := text.data.length
           wordCount := (pySplit text.data).length }

example :
    assemble ["Hello", "  world  "] (some "v") =
      some { transcriptText := "Hello world", videoUrl := some "v",
             characterCount := 11, wordCount := 2 } := by decide

/-- `true` when the list is empty or starts with a non-whitespace character. -/
def headNotWs : List Char → Bool
  | [] => true
  | c :: _ => !isPySpace c

/-- `true` when no two adjacent characters are both whitespace. -/
def noAdjWs : List Char → Bool
  | c :: d :: rest => !(isPySpace c && isPySpace d) && noAdjWs (d :: rest)
  | _ => true

theorem noAdjWs_tail {c : Char} {l : List Char} (h : noAdjWs (c :: l) = true) :
    noAdjWs l = true := by
  cases l with
  | nil => rfl
  | cons d r => exact (Bool.and_eq_true_iff.mp h).2

theorem noAdjWs_cons {c : Char} {l : List Char}
    (h1 : headNotWs l = true ∨ isPySpace c = false) (h2 : noAdjWs l = true) :
    noAdjWs (c :: l) = true := by
  cases l with
  | nil => rfl
  | cons d r =>
    simp only [noAdjWs, Bool.and_eq_true_iff]
    refine ⟨?_, h2⟩
    rcases h1 with h1 | h1
    · simp only [headNotWs, Bool.not_eq_true'] at h1
      simp [h1]
    · simp [h1]

theorem noAdjWs_drop_left {t b : List Char} (h : noAdjWs (b ++ t) = true) :
    noAdjWs t = true := by
  induction b with
  | nil => exact h
  | cons c b ih => exact ih (noAdjWs_tail h)

theorem noAdjWs_take_left {t b : List Char} (h : noAdjWs (t ++ b) = true) :
    noAdjWs t = true := by
  induction t with
  | nil => rfl
  | cons c t ih =>
    cases t with
    | nil => rfl
    | cons d r =>
      simp only [List.cons_append, noAdjWs, Bool.and_eq_true_iff] at h ⊢
      exact ⟨h.1, ih h.2⟩

theorem noAdjWs_within {t l : List Char} (h : noAdjWs l = true) (hinf : t <:+: l) :
    noAdjWs t = true := by
  obtain ⟨a, b, rfl⟩ := hinf
  rw [List.append_assoc] at h
  exact noAdjWs_take_left (noAdjWs_drop_left h)

theorem collapseAux_true_head (l : List Char) :
    headNotWs (collapseAux true l) = true := by
  induction l with
  | nil => rfl
  | cons c rest ih =>
    simp only [collapseAux]
    by_cases h : isPySpace c
    · simpa [h] using ih
    · simp [h, headNotWs]

theorem collapseAux_mem {b : Bool} {l : List Char} {c : Char}
    (h : c ∈ collapseAux b l) : isPySpace c = false ∨ c = ' ' := by
  induction l generalizing b with
  | nil => simp [collapseAux] at h
  | cons d rest ih =>
    simp only [collapseAux] at h
    by_cases hd : isPySpace d
    · cases b with
      | true => simpa [hd] using ih (by simpa [hd] using h)
      | false =>
        simp only [hd, if_true, Bool.false_eq_true, if_false, List.mem_cons] at h
        rcases h with h | h
        · exact Or.inr h
        · exact ih h
    · simp only [hd, Bool.false_eq_true, if_false, List.mem_cons] at h
      rcases h with rfl | h
      · exact Or.inl (by simp [hd])
      · exact ih h

theorem noAdjWs_collapseAux (l : List Char) : ∀ b, noAdjWs (collapseAux b l) = true := by
  induction l with
  | nil => intro b; rfl
  | cons c rest ih =>
    intro b
    simp only [collapseAux]
    by_cases h : isPySpace c
    · cases b with
      | true => simpa [h] using ih true
      | false =>
        simp only [h, if_true, Bool.false_eq_true, if_false]
        exact noAdjWs_cons (Or.inl (collapseAux_true_head rest)) (ih true)
    · simp only [h, Bool.false_eq_true, if_false]
      exact noAdjWs_cons (Or.inr (by simp [h])) (ih false)

theorem collapseAux_true_shift {c : Char} {rest : List Char} (h : isPySpace c = false) :
    collapseAux true (c :: rest) = collapseAux false (c :: rest) := by
  simp [collapseAux, h]

theorem collapseAux_false_fixed (l : List Char)
    (h1 : ∀ c ∈ l, isPySpace c = true → c = ' ')
    (h2 : noAdjWs l = true) : collapseAux false l = l := by
  induction l with
  | nil => rfl
  | cons c rest ih =>
    by_cases hc : isPySpace c
    · have hce : c = ' ' := h1 c (List.mem_cons_self c rest) hc
      cases rest with
      | nil => simp [collapseAux, hc, hce]
      | cons d r =>
        have hd : isPySpace d = false := by
          have := (Bool.and_eq_true_iff.mp h2).1
          simp only [hc, Bool.true_and, Bool.not_eq_true'] at this
          exact this
        have hrest : collapseAux false (d :: r) = d :: r :=
          ih (fun x hx hws => h1 x (List.mem_cons_of_mem c hx) hws) (noAdjWs_tail h2)
        calc collapseAux false (c :: d :: r)
            = ' ' :: collapseAux true (d :: r) := by simp [collapseAux, hc]
          _ = ' ' :: collapseAux false (d :: r) := by rw [collapseAux_true_shift hd]
          _ = c :: d :: r := by rw [hrest, hce]
    · have hrest : collapseAux false rest = rest :=
        ih (fun x hx hws => h1 x (List.mem_cons_of_mem c hx) hws) (noAdjWs_tail h2)
      simp [collapseAux, hc, hrest]

theorem dropWhile_ws_self {l : List Char} (h : headNotWs l = true) :
    l.dropWhile isPySpace = l := by
  cases l with
  | nil => rfl
  | cons c rest =>
    simp only [headNotWs, Bool.not_eq_true'] at h
    simp [List.dropWhile, h]

theorem stripPy_fixed {l : List Char} (h3 : headNotWs l = true)
    (h4 : headNotWs l.reverse = true) : stripPy l = l := by
  unfold stripPy
  rw [dropWhile_ws_self h3, dropWhile_ws_self h4, List.reverse_reverse]

theorem stripPy_mem {l : List Char} {c : Char} (h : c ∈ stripPy l) : c ∈ l := by
  unfold stripPy at h
  rw [List.mem_reverse] at h
  have h2 := (List.dropWhile_suffix isPySpace).subset h
  rw [List.mem_reverse] at h2
  exact (List.dropWhile_suffix isPySpace).subset h2

theorem stripPy_within (l : List Char) : stripPy l <:+: l := by
  unfold stripPy
  obtain ⟨a, ha⟩ := List.dropWhile_suffix (l := (l.dropWhile isPySpace).reverse) isPySpace
  obtain ⟨b, hb⟩ := List.dropWhile_suffix (l := l) isPySpace
  refine ⟨b, a.reverse, ?_⟩
  have : l.dropWhile isPySpace =
      ((l.dropWhile isPySpace).reverse.dropWhile isPySpace).reverse ++ a.reverse := by
    calc l.dropWhile isPySpace
        = (a ++ (l.dropWhile isPySpace).reverse.dropWhile isPySpace).reverse := by
          rw [ha, List.reverse_reverse]
      _ = _ := by rw [List.reverse_append]
  rw [List.append_assoc, ← this, hb]

/-- Line 106 as a `String → String` function:
`re.sub(r'\s+', ' ', s).strip()`. -/
def normStr (s : String) : String := ⟨normPy s.data⟩

theorem normPy_mem {l : List Char} {c : Char} (h : c ∈ normPy l) :
    isPySpace c = false ∨ c = ' ' :=
  collapseAux_mem (stripPy_mem h)

theorem normPy_noAdjWs (l : List Char) : noAdjWs (normPy l) = true :=
  noAdjWs_within (noAdjWs_collapseAux l false) (stripPy_within (collapsePy l))

theorem noAdjWs_no_two_sp {l : List Char} (h : noAdjWs l = true) :
    ¬ ([' ', ' '] <:+: l) := by
  intro hinf
  have := noAdjWs_within h hinf
  exact absurd this (by decide)

/-- **C7**: in every record `assemble` produces, `characterCount` is the length
of the final `transcriptText` and `wordCount` is the number of its
whitespace-delimited tokens — both recomputed from the normalized text. -/
theorem c7_counts_recomputed (nodes : List String) (url : Option String)
    (r : TranscriptRecord) (h : assemble nodes url = some r) :
    r.characterCount = r.transcriptText.length ∧
      r.wordCount = (pySplit r.transcriptText.data).length := by
  unfold assemble at h
  by_cases hn : nodes.isEmpty
  · simp [hn] at h
  · simp only [hn, Bool.false_eq_true, if_false, Option.some.injEq] at h
    subst h
    exact ⟨rfl, rfl⟩

theorem c7_counts_recomputed_witness :
    assemble ["Hello", "  world  "] none =
        some { transcriptText := "Hello world", videoUrl := none,
               characterCount := 11, wordCount := 2 } ∧
      (11 : Nat) = ("Hello world" : String).length ∧
      (2 : Nat) = (pySplit ("Hello world" : String).data).length :=
  ⟨by decide,
    c7_counts_recomputed ["Hello", "  world  "] none
      { transcriptText := "Hello world", videoUrl := none,
        characterCount := 11, wordCount := 2 } (by decide)⟩

/-- **C8** (amended): the claim's fixed-point property holds once "normalized
form" also rules out non-space whitespace characters such as tabs: a string
whose whitespace characters are all single spaces (no two adjacent), with no
leading or trailing whitespace, is unchanged by line 106's normalization.
(The claim as frozen — only "no newline, no double space, no leading/trailing
whitespace" — fails on a string with an interior tab, see the
counterexample.) -/
theorem c8_renormalize_fixed (s : String)
    (h1 : ∀ c ∈ s.data, isPySpace c = true → c = ' ')
    (h2 : noAdjWs s.data = true)
    (h3 : headNotWs s.data = true)
    (h4 : headNotWs s.data.reverse = true) :
    normStr s = s := by
  unfold normStr normPy collapsePy
  rw [collapseAux_false_fixed s.data h1 h2, stripPy_fixed h3 h4]

theorem c8_renormalize_fixed_witness :
    ((∀ c ∈ ("ab c" : String).data, isPySpace c = true → c = ' ') ∧
      noAdjWs ("ab c" : String).data = true ∧
      headNotWs ("ab c" : String).data = true ∧
      headNotWs ("ab c" : String).data.reverse = true) ∧
    normStr "ab c" = "ab c" :=
  ⟨by decide, c8_renormalize_fixed "ab c" (by decide) (by decide) (by decide) (by decide)⟩

/-- **C8** (counterexample): `"a\tb"` has no newline, no run of two or more
spaces, and no leading or trailing whitespace — so it is "already normalized"
in the claim's sense — yet renormalizing changes it (the tab becomes a
space). -/
theorem c8_tab_not_fixed :
    (∀ c ∈ ("a\tb" : String).data, c ≠ '\n') ∧
      ¬ ([' ', ' '] <:+: ("a\tb" : String).data) ∧
      headNotWs ("a\tb" : String).data = true ∧
      headNotWs ("a\tb" : String).data.reverse = true ∧
      normStr "a\tb" ≠ "a\tb" := by decide

/-- **C9**: every transcript text `assemble` produces contains no newline
character and no run of two or more consecutive spaces. -/
theorem c9_normalized_output (nodes : List String) (url : Option String)
    (r : TranscriptRecord) (h : assemble nodes url = some r) :
    (∀ c ∈ r.transcriptText.data, c ≠ '\n') ∧
      ¬ ([' ', ' '] <:+: r.transcriptText.data) := by
  unfold assemble at h
  by_cases hn : nodes.isEmpty
  · simp [hn] at h
  · simp only [hn, Bool.false_eq_true, if_false, Option.some.injEq] at h
    subst h
    constructor
    · intro c hc hne
      subst hne
      rcases normPy_mem hc with h | h
      · exact absurd h (by decide)
      · exact absurd h (by decide)
    · exact noAdjWs_no_two_sp (normPy_noAdjWs _)

theorem c9_normalized_output_witness :
    assemble ["a\n\nb", " c  d "] none =
        some { transcriptText := "a b c d", videoUrl := none,
               characterCount := 7, wordCount := 4 } ∧
      (∀ c ∈ ("a b c d" : String).data, c ≠ '\n') ∧
      ¬ ([' ', ' '] <:+: ("a b c d" : String).data) :=
  ⟨by decide,
    c9_normalized_output ["a\n\nb", " c  d "] none
      { transcriptText := "a b c d", videoUrl := none,
        characterCount := 7, wordCount := 4 } (by decide)⟩

theorem joinSp_all_ws (ls : List (List Char))
    (h : ∀ s ∈ ls, ∀ c ∈ s, isPySpace c = true) :
    ∀ c ∈ joinSp ls, isPySpace c = true := by
  induction ls with
  | nil => simp [joinSp]
  | cons x rest ih =>
    cases rest with
    | nil => simpa [joinSp] using h x (by simp)
    | cons y r =>
      intro c hc
      simp only [joinSp, List.mem_append, List.mem_cons] at hc
      rcases hc with hc | hc | hc
      · exact h x (by simp) c hc
      · subst hc; decide
      · exact ih (fun s hs => h s (List.mem_cons_of_mem x hs)) c hc

theorem collapseAux_true_all_ws (l : List Char) (h : ∀ c ∈ l, isPySpace c = true) :
    collapseAux true l = [] := by
  induction l with
  | nil => rfl
  | cons c rest ih =>
    have hc : isPySpace c = true := h c (by simp)
    simp [collapseAux, hc, ih (fun x hx => h x (List.mem_cons_of_mem c hx))]

theorem normPy_all_ws (l : List Char) (h : ∀ c ∈ l, isPySpace c = true) :
    normPy l = [] := by
  cases l with
  | nil => rfl
  | cons c rest =>
    have hc := h c (by simp)
    have hco : collapsePy (c :: rest) = [' '] := by
      simp [collapsePy, collapseAux, hc,
        collapseAux_true_all_ws rest (fun x hx => h x (List.mem_cons_of_mem c hx))]
    unfold normPy
    rw [hco]
    decide

/-- **C10**: a non-empty fragment list whose fragments are all whitespace-only
does not make `assemble` fail: it yields a record with empty text and both
counts zero (the empty-fragments failure fires only on an empty list). -/
theorem c10_whitespace_fragments (nodes : List String) (url : Option String)
    (hne : nodes ≠ [])
    (hws : ∀ s ∈ nodes, ∀ c ∈ s.data, isPySpace c = true) :
    assemble nodes url =
      some { transcriptText := "", videoUrl := url,
             characterCount := 0, wordCount := 0 } := by
  unfold assemble
  have hempty : nodes.isEmpty = false := by
    cases nodes with
    | nil => exact absurd rfl hne
    | cons a t => rfl
  have hnorm : normPy (joinSp (nodes.map String.data)) = [] := by
    refine normPy_all_ws _ (joinSp_all_ws _ ?_)
    intro s hs
    simp only [List.mem_map] at hs
    obtain ⟨t, ht, rfl⟩ := hs
    exact hws t ht
  simp [hempty, hnorm]
  decide

theorem c10_whitespace_fragments_witness :
    assemble [" ", "\t"] (some "u") =
      some { transcriptText := "", videoUrl := some "u",
             characterCount := 0, wordCount := 0 } :=
  c10_whitespace_fragments [" ", "\t"] (some "u") (by decide) (by decide)

/-- Parsed JSON values (the result of `json.loads`). Numbers keep their
lexeme: the pipeline never computes with them, it only tests truthiness. -/
inductive JSON where
  | null
  | bool (b : Bool)
  | num (lex : String)
  | str (s : String)
  | arr (elems : List JSON)
  | obj (fields : List (String × JSON))

/-- Whether a JSON number lexeme denotes zero (its mantissa digits are all
`0`), for Python truthiness. -/
def numIsZero (lex : String) : Bool :=
  ((lex.data.dropWhile (fun c => c = '-')).takeWhile
      (fun c => !(c = 'e') && !(c = 'E'))).all
    (fun c => c = '0' || c = '.')

/-- Python falsiness of a parsed JSON value (`not x`): `None`, `False`, zero,
and empty strings/lists/dicts are falsy. -/
def isFalsy : JSON → Bool
  | JSON.null => true
  | JSON.bool b => !b
  | JSON.num lex => numIsZero lex
  | JSON.str s => s.data.isEmpty
  | JSON.arr l => l.isEmpty
  | JSON.obj l => l.isEmpty

/-- `dict.get(k)` on the field list produced by `json.loads`: with duplicate
keys the later binding wins, as in a Python dict built by insertion. -/
def jget (fields : List (String × JSON)) (k : String) : Option JSON :=
  match fields with
  | [] => none
  | (k', v) :: rest =>
    match jget rest k with
    | some w => some w
    | none => if k' = k then some v else none

/-- Python `value in list_of_str` for a `.get` result: only an equal string
matches (line 64's `language_code in preferred_languages`). -/
def jsonInStrList (v : JSON) (pref : List String) : Bool :=
  match v with
  | JSON.str s => pref.contains s
  | _ => false

/-- The error outcomes of `parse` (lines 16-88), named as in the spec:
`markerNotFound` = line 27 (marker absent), `malformedPayload` = lines 40 and
86 (regex or `json.loads` failure), `noCaptionTracks` = lines 48-55 (captions
or track list absent/empty), `noValidUrl` = line 83 (spec: `EmptySourceList`),
`unexpectedError` = line 87 (an exception such as `AttributeError`). -/
inductive ExtractError where
  | markerNotFound
  | malformedPayload
  | noCaptionTracks
  | noValidUrl
  | unexpectedError
  deriving DecidableEq, Repr

/-- The hard-coded preference list at line 59. -/
def preferredLanguages : List String := ["en", "en-US", "id", "en-GB"]

/-- The loop at lines 62-67: scan the tracks in order; on the first track
whose `languageCode` (default `''`) is in the preference list, return its
`baseUrl` (`None` when missing) and stop. A non-dict element raises
(`AttributeError`, caught at line 87). -/
def loopUrl (pref : List String) : List JSON → Except ExtractError (Option JSON)
  | [] => Except.ok none
  | t :: rest =>
    match t with
    | JSON.obj fields =>
      if jsonInStrList ((jget fields "languageCode").getD (JSON.str "")) pref then
        Except.ok (jget fields "baseUrl")
      else loopUrl pref rest
    | _ => Except.error ExtractError.unexpectedError

/-- `caption_tracks[0].get('baseUrl')` from line 71 (only reached when the
list is non-empty; a non-dict head would raise). -/
def headUrl : List JSON → Except ExtractError (Option JSON)
  | [] => Except.ok none
  | JSON.obj fields :: _ => Except.ok (jget fields "baseUrl")
  | _ :: _ => Except.error ExtractError.unexpectedError

/-- Python truthiness of the `transcript_url` variable (`None` or a `.get`
result). -/
def optionTruthy : Option JSON → Bool
  | none => false
  | some v => !isFalsy v

/-- Lines 57-83: the full track selection. After the preference loop, the
fallback at lines 70-73 re-reads `caption_tracks[0]` whenever the loop left
`transcript_url` falsy; line 75 then requires a truthy URL (a truthy non-string
would make `scrapy.Request` raise, line 87). -/
def select (tracks : List JSON) (pref : List String) : Except ExtractError String :=
  match loopUrl pref tracks with
  | Except.error e => Except.error e
  | Except.ok url1 =>
    match (if !optionTruthy url1 && !tracks.isEmpty then headUrl tracks
           else Except.ok url1) with
    | Except.error e => Except.error e
    | Except.ok url2 =>
      match url2 with
      | some (JSON.str u) =>
        if u.data.isEmpty then Except.error ExtractError.noValidUrl
        else Except.ok u
      | some v =>
        if isFalsy v then Except.error ExtractError.noValidUrl
        else Except.error ExtractError.unexpectedError
      | none => Except.error ExtractError.noValidUrl

/-- A well-formed caption-track element: a map with a language code and a
resource URL (spec data model `CaptionTrack`). -/
def mkTrack (lc u : String) : JSON :=
  JSON.obj [("languageCode", JSON.str lc), ("baseUrl", JSON.str u)]

/-- What the code's scan amounts to, at the spec's level: the first track (in
original track order) whose language code is a *member* of the preference
list; if none, the first track. -/
def trackMajorPick (pairs : List (String × String)) (pref : List String) :
    Option String :=
  match pairs.find? (fun p => pref.contains p.1) with
  | some p => some p.2
  | none => pairs.head?.map (fun p => p.2)

/-- Modelled from the claim's words (spec §4.2 policy): iterate the preference
list in priority order; for each preferred code scan the tracks in their
original order; fall back to the first track when nothing matches. -/
def selectPrefMajor (tracks : List (String × String)) (pref : List String) :
    Option String :=
  match pref with
  | [] => tracks.head?.map (fun p => p.2)
  | c :: cs =>
    match tracks.find? (fun p => p.1 = c) with
    | some p => some p.2
    | none => selectPrefMajor tracks cs

theorem data_isEmpty_false {s : String} (h : s ≠ "") : s.data.isEmpty = false := by
  cases s with
  | mk l =>
    cases l with
    | nil => exact absurd rfl h
    | cons c t => rfl

theorem loopUrl_map (pairs : List (String × String)) (pref : List String) :
    loopUrl pref (pairs.map (fun p => mkTrack p.1 p.2)) =
      Except.ok
        (match pairs.find? (fun p => pref.contains p.1) with
         | some p => some (JSON.str p.2)
         | none => none) := by
  induction pairs with
  | nil => rfl
  | cons p rest ih =>
    have hstep : loopUrl pref ((p :: rest).map (fun q => mkTrack q.1 q.2)) =
        if pref.contains p.1 then Except.ok (some (JSON.str p.2))
        else loopUrl pref (rest.map (fun q => mkTrack q.1 q.2)) := rfl
    rw [hstep]
    by_cases hc : pref.contains p.1 = true
    · have hfind : List.find? (fun q => pref.contains q.1) (p :: rest) = some p :=
        List.find?_cons_of_pos rest hc
      rw [if_pos hc, hfind]
    · have hfind : List.find? (fun q => pref.contains q.1) (p :: rest) =
          List.find? (fun q => pref.contains q.1) rest :=
        List.find?_cons_of_neg rest (by simpa using hc)
      rw [if_neg hc, ih, hfind]

theorem select_map_track_major (pairs : List (String × String)) (pref : List String)
    (hu : ∀ p ∈ pairs, p.2 ≠ "") :
    select (pairs.map (fun p => mkTrack p.1 p.2)) pref =
      (match trackMajorPick pairs pref with
       | some u => Except.ok u
       | none => Except.error ExtractError.noValidUrl) := by
  unfold select trackMajorPick
  rw [loopUrl_map]
  cases hfind : pairs.find? (fun p => pref.contains p.1) with
  | some p =>
    have hp : p ∈ pairs := List.mem_of_find?_eq_some hfind
    have hne : p.2.data.isEmpty = false := data_isEmpty_false (hu p hp)
    simp [optionTruthy, isFalsy, hne]
  | none =>
    cases pairs with
    | nil => simp [optionTruthy]
    | cons p0 rest =>
      have hne : p0.2.data.isEmpty = false :=
        data_isEmpty_false (hu p0 (List.mem_cons_self _ _))
      simp [optionTruthy, headUrl, mkTrack, jget, isFalsy, hne]

/-- **C1** (amended): track order dominates, not preference order. `select`
returns the first track in *original track order* whose language code is a
member of the preference list (membership only — the ranking inside the
preference list is ignored), and falls back to the first track when no code
is a member. The claim as frozen (preference order dominates) fails, see the
counterexample. Stated for well-formed tracks with non-empty URLs. -/
theorem c1_track_order_dominates (pairs : List (String × String))
    (pref : List String) (hu : ∀ p ∈ pairs, p.2 ≠ "") :
    select (pairs.map (fun p => mkTrack p.1 p.2)) pref =
      (match trackMajorPick pairs pref with
       | some u => Except.ok u
       | none => Except.error ExtractError.noValidUrl) :=
  select_map_track_major pairs pref hu

theorem c1_track_order_dominates_witness :
    (∀ p ∈ [("fr", "u0"), ("en", "u2")], (p : String × String).2 ≠ "") ∧
      select ([("fr", "u0"), ("en", "u2")].map (fun p => mkTrack p.1 p.2)) ["en"] =
        (match trackMajorPick [("fr", "u0"), ("en", "u2")] ["en"] with
         | some u => Except.ok u
         | none => Except.error ExtractError.noValidUrl) :=
  ⟨by decide, c1_track_order_dominates [("fr", "u0"), ("en", "u2")] ["en"] (by decide)⟩

/-- **C1** (counterexample): with tracks `id, en` (in that order) and
preference `["en", "id"]`, the highest-priority preference code matching any
track is `"en"`, so the claim demands the `en` track (`u2`); the code scans
tracks first and returns the `id` track (`u1`). `selectPrefMajor` is the
claim's own policy, written from the spec's words. -/
theorem c1_pref_order_fails :
    select ([("id", "u1"), ("en", "u2")].map (fun p => mkTrack p.1 p.2)) ["en", "id"] =
        Except.ok "u1" ∧
      selectPrefMajor [("id", "u1"), ("en", "u2")] ["en", "id"] = some "u2" ∧
      ("u1" : String) ≠ "u2" :=
  ⟨rfl, rfl, by decide⟩

/-- **C2**: when no track's language code is a member of the preference list,
`select` returns the first track's URL (index 0), regardless of that track's
language. Stated for well-formed tracks whose first URL is non-empty. -/
theorem c2_no_match_first_track (p0 : String × String)
    (rest : List (String × String)) (pref : List String) (h0 : p0.2 ≠ "")
    (hnm : ∀ p ∈ p0 :: rest, pref.contains p.1 = false) :
    select ((p0 :: rest).map (fun p => mkTrack p.1 p.2)) pref =
      Except.ok p0.2 := by
  have hfind : (p0 :: rest).find? (fun p => pref.contains p.1) = none :=
    List.find?_eq_none.mpr (by intro x hx; simpa using hnm x hx)
  unfold select
  rw [loopUrl_map, hfind]
  have hne : p0.2.data.isEmpty = false := data_isEmpty_false h0
  simp [optionTruthy, headUrl, mkTrack, jget, isFalsy, hne]

theorem c2_no_match_first_track_witness :
    ((("fr", "u0") : String × String).2 ≠ "" ∧
      (∀ p ∈ [("fr", "u0"), ("de", "u3")],
        (["en"] : List String).contains (p : String × String).1 = false)) ∧
      select ([("fr", "u0"), ("de", "u3")].map (fun p => mkTrack p.1 p.2)) ["en"] =
        Except.ok "u0" :=
  ⟨⟨by decide, by decide⟩,
    c2_no_match_first_track ("fr", "u0") [("de", "u3")] ["en"] (by decide) (by decide)⟩

/-- JSON structural whitespace (accepted by `json.loads` around tokens). -/
def isJsonWs (c : Char) : Bool := c = ' ' || c = '\t' || c = '\n' || c = '\r'

/-- Value of one hexadecimal digit (by code point: digits, then the lowercase
and uppercase letter ranges), for string escapes. -/
def hexVal (c : Char) : Option Nat :=
  let n := c.toNat
  if 48 ≤ n && n ≤ 57 then some (n - 48)
  else if 97 ≤ n && n ≤ 102 then some (n - 87)
  else if 65 ≤ n && n ≤ 70 then some (n - 55)
  else none

/-- Single-character JSON string escapes. -/
def escChar (c : Char) : Option Char :=
  if c = '"' then some '"'
  else if c = '\\' then some '\\'
  else if c = '/' then some '/'
  else if c = 'b' then some (Char.ofNat 8)
  else if c = 'f' then some (Char.ofNat 12)
  else if c = 'n' then some '\n'
  else if c = 'r' then some '\r'
  else if c = 't' then some '\t'
  else none

/-- Body of a JSON string after the opening quote: returns the decoded
content and the input after the closing quote. Unescaped control characters
are rejected, as by `json.loads` in strict mode. -/
def parseStringBody : List Char → Option (List Char × List Char)
  | [] => none
  | '"' :: rest => some ([], rest)
  | '\\' :: 'u' :: h1 :: h2 :: h3 :: h4 :: rest =>
    (match hexVal h1, hexVal h2, hexVal h3, hexVal h4 with
     | some a, some b, some c, some d =>
       (parseStringBody rest).map
         (fun p => (Char.ofNat (((a * 16 + b) * 16 + c) * 16 + d) :: p.1, p.2))
     | _, _, _, _ => none)
  | '\\' :: e :: rest =>
    (match escChar e with
     | some c => (parseStringBody rest).map (fun p => (c :: p.1, p.2))
     | none => none)
  | c :: rest =>
    if c.toNat < 32 then none
    else (parseStringBody rest).map (fun p => (c :: p.1, p.2))

/-- Split a leading run of decimal digits. -/
def takeDigits (l : List Char) : List Char × List Char :=
  (l.takeWhile Char.isDigit, l.dropWhile Char.isDigit)

/-- Optional fraction part of a JSON number. -/
def parseFracPart : List Char → Option (List Char × List Char)
  | '.' :: t =>
    (match takeDigits t with
     | ([], _) => none
     | (ds, r) => some ('.' :: ds, r))
  | t => some ([], t)

/-- Optional exponent part of a JSON number. -/
def parseExpPart : List Char → Option (List Char × List Char)
  | [] => some ([], [])
  | c :: t =>
    if c = 'e' || c = 'E' then
      match t with
      | [] => none
      | s :: t2 =>
        if s = '+' || s = '-' then
          match takeDigits t2 with
          | ([], _) => none
          | (ds, r) => some (c :: s :: ds, r)
        else
          match takeDigits t with
          | ([], _) => none
          | (ds, r) => some (c :: ds, r)
    else some ([], c :: t)

/-- JSON number grammar (`-?int frac? exp?`, no leading zeros); returns the
lexeme and the remaining input. -/
def parseNumLex (l : List Char) : Option (List Char × List Char) :=
  let sl : List Char × List Char :=
    match l with
    | '-' :: t => (['-'], t)
    | _ => ([], l)
  match sl.2 with
  | '0' :: t =>
    (match parseFracPart t with
     | none => none
     | some (fr, r1) =>
       match parseExpPart r1 with
       | none => none
       | some (ex, r2) => some (sl.1 ++ '0' :: (fr ++ ex), r2))
  | c :: t =>
    if c.isDigit && !(c = '0') then
      match takeDigits t with
      | (ds, r0) =>
        match parseFracPart r0 with
        | none => none
        | some (fr, r1) =>
          match parseExpPart r1 with
          | none => none
          | some (ex, r2) => some (sl.1 ++ c :: (ds ++ fr ++ ex), r2)
    else none
  | [] => none

mutual

/-- One JSON value after optional whitespace, fuel-bounded recursive
descent. -/
def parseValue : Nat → List Char → Option (JSON × List Char)
  | 0, _ => none
  | Nat.succ fuel, l =>
    match l.dropWhile isJsonWs with
    | 'n' :: 'u' :: 'l' :: 'l' :: rest => some (JSON.null, rest)
    | 't' :: 'r' :: 'u' :: 'e' :: rest => some (JSON.bool true, rest)
    | 'f' :: 'a' :: 'l' :: 's' :: 'e' :: rest => some (JSON.bool false, rest)
    | '"' :: rest => (parseStringBody rest).map (fun p => (JSON.str ⟨p.1⟩, p.2))
    | '[' :: rest => parseArrayRest fuel rest
    | '\x7b' :: rest => parseObjRest fuel rest
    | l2 => (parseNumLex l2).map (fun p => (JSON.num ⟨p.1⟩, p.2))

/-- After an opening bracket: empty array or element list. -/
def parseArrayRest : Nat → List Char → Option (JSON × List Char)
  | 0, _ => none
  | Nat.succ fuel, l =>
    match l.dropWhile isJsonWs with
    | ']' :: rest => some (JSON.arr [], rest)
    | l2 => (parseElems fuel l2).map (fun p => (JSON.arr p.1, p.2))

/-- One or more comma-separated array elements and the closing bracket. -/
def parseElems : Nat → List Char → Option (List JSON × List Char)
  | 0, _ => none
  | Nat.succ fuel, l =>
    match parseValue fuel l with
    | none => none
    | some (v, r) =>
      match r.dropWhile isJsonWs with
      | ',' :: r2 => (parseElems fuel r2).map (fun p => (v :: p.1, p.2))
      | ']' :: r2 => some ([v], r2)
      | _ => none

/-- After an opening brace: empty object or member list. -/
def parseObjRest : Nat → List Char → Option (JSON × List Char)
  | 0, _ => none
  | Nat.succ fuel, l =>
    match l.dropWhile isJsonWs with
    | '\x7d' :: rest => some (JSON.obj [], rest)
    | l2 => (parseMembers fuel l2).map (fun p => (JSON.obj p.1, p.2))

/-- One or more comma-separated object members and the closing brace. -/
def parseMembers : Nat → List Char → Option (List (String × JSON) × List Char)
  | 0, _ => none
  | Nat.succ fuel, l =>
    match l.dropWhile isJsonWs with
    | '"' :: rest =>
      (match parseStringBody rest with
       | none => none
       | some (key, r1) =>
         match r1.dropWhile isJsonWs with
         | ':' :: r2 =>
           (match parseValue fuel r2 with
            | none => none
            | some (v, r3) =>
              match r3.dropWhile isJsonWs with
              | ',' :: r4 =>
                (parseMembers fuel r4).map (fun p => ((⟨key⟩, v) :: p.1, p.2))
              | '\x7d' :: r4 => some ([(⟨key⟩, v)], r4)
              | _ => none)
         | _ => none)
    | _ => none

end

/-- `json.loads` (line 44): parse one document, allow trailing whitespace
only. The fuel is ample for any input of the given length. -/
def parseJSON (l : List Char) : Option JSON :=
  match parseValue (4 * l.length + 8) l with
  | some (v, rest) => if (rest.dropWhile isJsonWs).isEmpty then some v else none
  | none => none

/-- The literal head of the regex at line 34, which is also the substring the
XPath at lines 22-24 selects on. -/
def marker : List Char := "var ytInitialPlayerResponse".data

/-- Whether a list starts with a semicolon. -/
def headIsSemi (l : List Char) : Bool :=
  match l with
  | c :: _ => c = ';'
  | [] => false

/-- The lazy `.*?` of the group in the regex at line 34 (with `re.DOTALL`):
consume as little as possible until a closing brace immediately followed by a
semicolon; returns the consumed characters (group content between the
braces). -/
def lazyToCloseSemi : List Char → Option (List Char)
  | [] => none
  | c :: rest =>
    if c = '\x7d' && headIsSemi rest then some []
    else (lazyToCloseSemi rest).map (fun a => c :: a)

/-- Require a leading equals sign. -/
def expectEq : List Char → Option (List Char)
  | c :: r => if c = '=' then some r else none
  | [] => none

/-- Require a leading opening brace. -/
def expectBrace : List Char → Option (List Char)
  | c :: r => if c = '\x7b' then some r else none
  | [] => none

/-- The regex tail after the marker literal: greedy-but-deterministic
whitespace, an equals sign, whitespace, then the group — an opening brace,
the lazy body, the closing brace — and the semicolon. Returns group 1. -/
def matchAfterMarker (s : List Char) : Option (List Char) :=
  (expectEq (s.dropWhile isPySpace)).bind fun r1 =>
    (expectBrace (r1.dropWhile isPySpace)).bind fun r2 =>
      (lazyToCloseSemi r2).map fun inner => '\x7b' :: (inner ++ ['\x7d'])

/-- `re.search` of the pattern at lines 33-37: try each start position left
to right, returning group 1 of the first position where the whole pattern
matches. -/
def searchCfg : List Char → Option (List Char)
  | [] => none
  | c :: rest =>
    if marker.isPrefixOf (c :: rest) then
      match matchAfterMarker ((c :: rest).drop marker.length) with
      | some g => some g
      | none => searchCfg rest
    else searchCfg rest

/-- Lines 47-55: `player_response.get('captions')`, then
`.get('playerCaptionsTracklistRenderer', dict()).get('captionTracks')`, with
Python falsiness checks at lines 48 and 53; calling `.get` on a non-dict
along the path raises (caught at line 87). -/
def navigate (v : JSON) : Except ExtractError (List JSON) :=
  match v with
  | JSON.obj fields =>
    match jget fields "captions" with
    | none => Except.error ExtractError.noCaptionTracks
    | some c =>
      if isFalsy c then Except.error ExtractError.noCaptionTracks
      else
        match c with
        | JSON.obj cf =>
          (match (jget cf "playerCaptionsTracklistRenderer").getD (JSON.obj []) with
           | JSON.obj rf =>
             (match jget rf "captionTracks" with
              | none => Except.error ExtractError.noCaptionTracks
              | some ct =>
                if isFalsy ct then Except.error ExtractError.noCaptionTracks
                else
                  match ct with
                  | JSON.arr l => Except.ok l
                  | _ => Except.error ExtractError.unexpectedError)
           | _ => Except.error ExtractError.unexpectedError)
        | _ => Except.error ExtractError.unexpectedError
  | _ => Except.error ExtractError.unexpectedError

/-- Lines 22-55 of `parse` as the spec's `ConfigExtractor.extract`: the
marker test (XPath), the regex carve, `json.loads`, and the key-path
navigation, producing the caption-track list. -/
def extract (body : List Char) : Except ExtractError (List JSON) :=
  if marker <:+: body then
    match searchCfg body with
    | none => Except.error ExtractError.malformedPayload
    | some s =>
      match parseJSON s with
      | none => Except.error ExtractError.malformedPayload
      | some v => navigate v
  else Except.error ExtractError.markerNotFound

/-- The whole of `parse` (lines 16-88): extract, then select with the
hard-coded preference list; `.ok` carries the URL of the request issued at
lines 77-81. -/
def parsePage (body : List Char) : Except ExtractError String :=
  match extract body with
  | Except.error e => Except.error e
  | Except.ok tracks => select tracks preferredLanguages

/-- **C5**: a body without the marker substring fails with `markerNotFound`
and yields no caption-track list (no partial configuration). -/
theorem c5_no_marker (body : List Char) (h : ¬ (marker <:+: body)) :
    extract body = Except.error ExtractError.markerNotFound := by
  unfold extract
  rw [if_neg h]

theorem c5_no_marker_witness :
    ¬ (marker <:+: ("<html>no player config</html>" : String).data) ∧
      extract ("<html>no player config</html>" : String).data =
        Except.error ExtractError.markerNotFound :=
  ⟨by decide, c5_no_marker _ (by decide)⟩

/-- **C6**: when the marker is present but the regex finds no delimitable
substring or the delimited substring fails to parse, `extract` returns the
typed failure `malformedPayload` (the `except` at lines 85-88 turns the
`JSONDecodeError` into a log-and-return), and no track list is produced. -/
theorem c6_malformed_payload (body : List Char) (hm : marker <:+: body)
    (hp : ∀ s, searchCfg body = some s → parseJSON s = none) :
    extract body = Except.error ExtractError.malformedPayload := by
  unfold extract
  rw [if_pos hm]
  cases hs : searchCfg body with
  | none => rfl
  | some s => simp [hp s hs]

def bodyC6 : List Char :=
  ("var ytInitialPlayerResponse = \x7b\"a\":\x7b\"b\":1\x7d;" : String).data

theorem c6_malformed_payload_witness :
    (marker <:+: bodyC6) ∧
      extract bodyC6 = Except.error ExtractError.malformedPayload :=
  ⟨by decide,
    c6_malformed_payload bodyC6 (by decide)
      (by
        intro s hs
        have e : searchCfg bodyC6 =
            some ("\x7b\"a\":\x7b\"b\":1\x7d" : String).data := by decide
        rw [e] at hs
        rw [← Option.some.inj hs]
        rfl)⟩

def bodyC3 : List Char :=
  ("var ytInitialPlayerResponse = \x7b\"a\":\"\x7d;\"\x7d;" : String).data

/-- **C3** (counterexample): the body embeds the well-formed object literal
whose single value is the string containing a closing brace and a semicolon,
terminated by its statement boundary. The literal parses, yet the lazy regex
delimits only a strict prefix of it (stopping at the brace-semicolon inside
the string value), so `extract` reports `malformedPayload` instead of
parsing the complete literal. -/
theorem c3_lazy_truncates :
    searchCfg bodyC3 = some ("\x7b\"a\":\"\x7d" : String).data ∧
      ("\x7b\"a\":\"\x7d" : String).data ≠ ("\x7b\"a\":\"\x7d;\"\x7d" : String).data ∧
      ("\x7b\"a\":\"\x7d" : String).data <+: ("\x7b\"a\":\"\x7d;\"\x7d" : String).data ∧
      (parseJSON ("\x7b\"a\":\"\x7d;\"\x7d" : String).data).isSome = true ∧
      extract bodyC3 = Except.error ExtractError.malformedPayload := by
  refine ⟨by decide, by decide, by decide, by decide, ?_⟩
  rfl

theorem dropWhile_ws_append {sp : List Char} (x : List Char)
    (h : ∀ c ∈ sp, isPySpace c = true) :
    (sp ++ x).dropWhile isPySpace = x.dropWhile isPySpace := by
  induction sp with
  | nil => rfl
  | cons c r ih =>
    have hc : isPySpace c = true := h c (by simp)
    simp only [List.cons_append, List.dropWhile_cons, hc, if_true]
    exact ih (fun d hd => h d (List.mem_cons_of_mem c hd))

theorem lazyToCloseSemi_exact (inner post : List Char)
    (h : ¬ (['\x7d', ';'] <:+: inner)) :
    lazyToCloseSemi (inner ++ '\x7d' :: ';' :: post) = some inner := by
  induction inner with
  | nil => simp [lazyToCloseSemi, headIsSemi]
  | cons c rest ih =>
    have hcond : (c = '\x7d' && headIsSemi (rest ++ '\x7d' :: ';' :: post)) = false := by
      by_cases hc : c = '\x7d'
      · subst hc
        cases rest with
        | nil => simp [headIsSemi]
        | cons d r =>
          by_cases hds : d = ';'
          · subst hds
            exact absurd (⟨[], r, rfl⟩ : ['\x7d', ';'] <:+: '\x7d' :: ';' :: r) h
          · simp [headIsSemi, hds]
      · simp [hc]
    have hrest : ¬ (['\x7d', ';'] <:+: rest) := fun hin => h (List.infix_cons hin)
    simp only [List.cons_append, lazyToCloseSemi, List.append_eq, hcond,
      Bool.false_eq_true, if_false, ih hrest]
    rfl

theorem matchAfterMarker_eq (sp1 sp2 inner post : List Char)
    (hsp1 : ∀ c ∈ sp1, isPySpace c = true)
    (hsp2 : ∀ c ∈ sp2, isPySpace c = true)
    (hinner : ¬ (['\x7d', ';'] <:+: inner)) :
    matchAfterMarker
        (sp1 ++ '=' :: (sp2 ++ '\x7b' :: (inner ++ '\x7d' :: ';' :: post))) =
      some ('\x7b' :: (inner ++ ['\x7d'])) := by
  have h1 : ('=' :: (sp2 ++ '\x7b' :: (inner ++ '\x7d' :: ';' :: post))).dropWhile
      isPySpace = '=' :: (sp2 ++ '\x7b' :: (inner ++ '\x7d' :: ';' :: post)) :=
    dropWhile_ws_self rfl
  have h2 : ('\x7b' :: (inner ++ '\x7d' :: ';' :: post)).dropWhile isPySpace =
      '\x7b' :: (inner ++ '\x7d' :: ';' :: post) :=
    dropWhile_ws_self rfl
  have e1 : expectEq ('=' :: (sp2 ++ '\x7b' :: (inner ++ '\x7d' :: ';' :: post))) =
      some (sp2 ++ '\x7b' :: (inner ++ '\x7d' :: ';' :: post)) := by
    simp [expectEq]
  have e2 : expectBrace ('\x7b' :: (inner ++ '\x7d' :: ';' :: post)) =
      some (inner ++ '\x7d' :: ';' :: post) := by
    simp [expectBrace]
  simp only [matchAfterMarker, dropWhile_ws_append _ hsp1, h1, e1, Option.some_bind,
    dropWhile_ws_append _ hsp2, h2, e2, lazyToCloseSemi_exact inner post hinner,
    Option.map_some']

theorem searchCfg_at (body : List Char) (h : marker.isPrefixOf body = true)
    {g : List Char} (hm : matchAfterMarker (body.drop marker.length) = some g) :
    searchCfg body = some g := by
  cases body with
  | nil => exact absurd h (by decide)
  | cons c rest =>
    unfold searchCfg
    rw [h, if_pos rfl, hm]

theorem searchCfg_skip (pre rest : List Char)
    (hpre : ∀ n, n < pre.length →
      marker.isPrefixOf ((pre ++ (marker ++ rest)).drop n) = false)
    {g : List Char} (hm : matchAfterMarker rest = some g) :
    searchCfg (pre ++ (marker ++ rest)) = some g := by
  induction pre with
  | nil =>
    rw [List.nil_append]
    apply searchCfg_at
    · exact List.isPrefixOf_iff_prefix.mpr (List.prefix_append marker rest)
    · rw [List.drop_left]
      exact hm
  | cons p pre ih =>
    rw [List.cons_append]
    have h0 : marker.isPrefixOf (p :: (pre ++ (marker ++ rest))) = false := by
      have h' := hpre 0 (by simp)
      simpa using h'
    unfold searchCfg
    rw [h0]
    simp only [Bool.false_eq_true, if_false]
    exact ih (fun n hn => by
      have h' := hpre (n + 1) (by simpa using Nat.succ_lt_succ hn)
      simpa [List.drop_succ_cons] using h')

/-- **C3** (amended): the regex at line 34 is lazy, not balance-aware: it
delimits from the object's opening brace to the *first* closing brace that is
immediately followed by a semicolon. Whenever the embedded object's interior
contains no such brace-semicolon pair, the delimited substring is exactly the
complete literal (up to its terminating statement boundary) and `extract`
parses it and proceeds to navigation, tolerating arbitrary surrounding
content before and after. When a brace-semicolon pair occurs inside the
literal (e.g. inside a string value), the delimited substring is a strict,
truncated prefix of the object — see the counterexample. -/
theorem c3_carve_and_parse (pre sp1 sp2 inner post : List Char) (v : JSON)
    (hpre : ∀ n, n < pre.length →
      marker.isPrefixOf
        ((pre ++ (marker ++
          (sp1 ++ '=' :: (sp2 ++ '\x7b' :: (inner ++ '\x7d' :: ';' :: post))))).drop
          n) = false)
    (hsp1 : ∀ c ∈ sp1, isPySpace c = true)
    (hsp2 : ∀ c ∈ sp2, isPySpace c = true)
    (hinner : ¬ (['\x7d', ';'] <:+: inner))
    (hparse : parseJSON ('\x7b' :: (inner ++ ['\x7d'])) = some v) :
    searchCfg (pre ++ (marker ++
        (sp1 ++ '=' :: (sp2 ++ '\x7b' :: (inner ++ '\x7d' :: ';' :: post))))) =
        some ('\x7b' :: (inner ++ ['\x7d'])) ∧
      extract (pre ++ (marker ++
        (sp1 ++ '=' :: (sp2 ++ '\x7b' :: (inner ++ '\x7d' :: ';' :: post))))) =
        navigate v := by
  have hsearch :=
    searchCfg_skip pre _ hpre (matchAfterMarker_eq sp1 sp2 inner post hsp1 hsp2 hinner)
  refine ⟨hsearch, ?_⟩
  unfold extract
  have hinf : marker <:+:
      (pre ++ (marker ++
        (sp1 ++ '=' :: (sp2 ++ '\x7b' :: (inner ++ '\x7d' :: ';' :: post))))) :=
    ⟨pre, sp1 ++ '=' :: (sp2 ++ '\x7b' :: (inner ++ '\x7d' :: ';' :: post)),
      by rw [List.append_assoc]⟩
  rw [if_pos hinf, hsearch]
  simp [hparse]

theorem c3_carve_and_parse_witness :
    searchCfg (("x " : String).data ++ (marker ++
        ((" " : String).data ++ '=' :: ((" " : String).data ++ '\x7b' ::
          (("\"a\":1" : String).data ++ '\x7d' :: ';' :: (" tail" : String).data))))) =
        some ('\x7b' :: (("\"a\":1" : String).data ++ ['\x7d'])) ∧
      extract (("x " : String).data ++ (marker ++
        ((" " : String).data ++ '=' :: ((" " : String).data ++ '\x7b' ::
          (("\"a\":1" : String).data ++ '\x7d' :: ';' :: (" tail" : String).data))))) =
        navigate (JSON.obj [("a", JSON.num "1")]) :=
  c3_carve_and_parse (("x " : String).data) ((" " : String).data)
    ((" " : String).data) (("\"a\":1" : String).data) ((" tail" : String).data)
    (JSON.obj [("a", JSON.num "1")])
    (by decide) (by decide) (by decide) (by decide) (by rfl)

/-- The canonical player-response shape: `captions` →
`playerCaptionsTracklistRenderer` → `captionTracks`. -/
def mkPR (l : List JSON) : JSON :=
  JSON.obj [("captions", JSON.obj [("playerCaptionsTracklistRenderer",
    JSON.obj [("captionTracks", JSON.arr l)])])]

/-- **C4** (counterexample): with tracks `fr/u0`, `en` *without* a URL, and
`en/u2`, preference `en`: a skip-the-malformed-element policy would select
`u2`, but the code's loop stops on the URL-less `en` track and the fallback
returns the `fr` track's `u0` — the missing-field element changes which
well-formed track is selected. Moreover a non-empty track list containing
only malformed elements is not rejected by navigation (no filtering), and
the eventual failure is the line-83 "no valid URL" error, not
`noCaptionTracks`. -/
theorem c4_missing_field_breaks :
    select [mkTrack "fr" "u0", JSON.obj [("languageCode", JSON.str "en")],
        mkTrack "en" "u2"] ["en"] = Except.ok "u0" ∧
      select [mkTrack "fr" "u0", mkTrack "en" "u2"] ["en"] = Except.ok "u2" ∧
      ("u0" : String) ≠ "u2" ∧
      navigate (mkPR [JSON.obj []]) = Except.ok [JSON.obj []] ∧
      select [JSON.obj []] ["en"] = Except.error ExtractError.noValidUrl :=
  ⟨rfl, rfl, by decide, rfl, rfl⟩

/-- **C4** (amended): navigation performs no filtering: the caption-track
list is returned exactly as parsed, malformed elements included, and
`noCaptionTracks` arises exactly when the captions value or the track list is
absent or empty as parsed. During selection, a track missing `languageCode`
is treated as having code `''` (so it never matches), but a track whose code
matches while its `baseUrl` is missing stops the scan and triggers the
fallback to the *first* track's URL — a missing-field element can therefore
change which track is selected. -/
theorem c4_no_filtering (l : List JSON) (hl : l ≠ [])
    (lc0 u0 lc1 : String) (rest : List JSON) (pref : List String)
    (hu0 : u0 ≠ "") (h0 : pref.contains lc0 = false)
    (h1 : pref.contains lc1 = true) :
    navigate (mkPR l) = Except.ok l ∧
      navigate (mkPR []) = Except.error ExtractError.noCaptionTracks ∧
      select (mkTrack lc0 u0 :: JSON.obj [("languageCode", JSON.str lc1)] :: rest)
          pref = Except.ok u0 := by
  refine ⟨?_, rfl, ?_⟩
  · have hle : l.isEmpty = false := by
      cases l with
      | nil => exact absurd rfl hl
      | cons a t => rfl
    simp [navigate, mkPR, jget, isFalsy, hle]
  · have hloop : loopUrl pref
        (mkTrack lc0 u0 :: JSON.obj [("languageCode", JSON.str lc1)] :: rest) =
        Except.ok none := by
      have e0 : loopUrl pref
          (mkTrack lc0 u0 :: JSON.obj [("languageCode", JSON.str lc1)] :: rest) =
          if pref.contains lc0 then Except.ok (some (JSON.str u0))
          else loopUrl pref (JSON.obj [("languageCode", JSON.str lc1)] :: rest) := rfl
      have e1 : loopUrl pref (JSON.obj [("languageCode", JSON.str lc1)] :: rest) =
          if pref.contains lc1 then Except.ok none else loopUrl pref rest := rfl
      rw [e0, h0, e1, h1]
      simp
    unfold select
    rw [hloop]
    simp [optionTruthy, headUrl, mkTrack, jget, isFalsy, data_isEmpty_false hu0]

theorem c4_no_filtering_witness :
    navigate (mkPR [JSON.null]) = Except.ok [JSON.null] ∧
      navigate (mkPR []) = Except.error ExtractError.noCaptionTracks ∧
      select (mkTrack "fr" "u0" :: JSON.obj [("languageCode", JSON.str "en")] :: [])
          ["en"] = Except.ok "u0" :=
  c4_no_filtering [JSON.null] (List.cons_ne_nil _ _) "fr" "u0" "en" [] ["en"]
    (by decide) (by decide) (by decide)
